import Mathlib

/-!
Verification of the sotion proxy/cache engine.

This file gives a shallow embedding of the data model and operations of the
sotion repository (a Notion-page proxy with a PostgreSQL-backed mapping store
and TTL-bounded asset cache) and proves or refutes the frozen claims about it.

Conventions of the embedding:
* SQL tables become Lean lists of structures; one list element per row.
* `CURRENT_TIMESTAMP` becomes an explicit `Nat` parameter (`now`), counted in
  seconds, so the 5-minute TTL of `asset_cache` is the constant 300.
* Each database statement becomes a pure function from the table value to the
  new table value; the per-statement atomicity of PostgreSQL is reflected by
  the functions being total transformations of the whole list.
* Non-deterministic id generation (`nanoid`) becomes an explicit id argument
  or an explicit supply of fresh ids.
* JavaScript string operations (`includes`, `startsWith`, `endsWith`,
  `split`, `encodeURIComponent`) are re-implemented character by character
  over `String.data`.
-/

namespace Sotion

/-! ## JavaScript string primitives -/

/-- `startsWithL s pat` is JavaScript `s.startsWith(pat)` on character lists. -/
def startsWithL : List Char → List Char → Bool
  | _, [] => true
  | [], _ :: _ => false
  | c :: s, p :: ps => c == p && startsWithL s ps

/-- `includesL s pat` is JavaScript `s.includes(pat)` on character lists. -/
def includesL : List Char → List Char → Bool
  | [], pat => startsWithL [] pat
  | c :: s, pat => startsWithL (c :: s) pat || includesL s pat

/-- JavaScript `s.startsWith(pat)`. -/
def jsStartsWith (s pat : String) : Bool := startsWithL s.data pat.data

/-- JavaScript `s.includes(pat)`. -/
def jsIncludes (s pat : String) : Bool := includesL s.data pat.data

/-- JavaScript `s.endsWith(pat)`. -/
def jsEndsWith (s pat : String) : Bool := startsWithL s.data.reverse pat.data.reverse

/-- The characters of `l` strictly before the first occurrence of `ch`
(JavaScript `l.split(ch)[0]`). -/
def beforeChar (ch : Char) : List Char → List Char
  | [] => []
  | c :: t => if c == ch then [] else c :: beforeChar ch t

/-- JavaScript `u.split('?')[0].split('#')[0]` as used by the link
auto-discovery pass of `src/server.js`. -/
def stripQueryFragment (u : String) : String :=
  ⟨beforeChar (Char.ofNat 35) (beforeChar (Char.ofNat 63) u.data)⟩

/-- Upper-case hexadecimal digit for `n < 16`. -/
def hexDigitChar (n : Nat) : Char :=
  if n < 10 then Char.ofNat (48 + n) else Char.ofNat (55 + n)

/-- The UTF-8 bytes of a character, as natural numbers below 256. -/
def utf8BytesOf (c : Char) : List Nat :=
  let n := c.toNat
  if n < 128 then [n]
  else if n < 2048 then [192 + n / 64, 128 + n % 64]
  else if n < 65536 then [224 + n / 4096, 128 + (n / 64) % 64, 128 + n % 64]
  else [240 + n / 262144, 128 + (n / 4096) % 64, 128 + (n / 64) % 64, 128 + n % 64]

/-- Characters that JavaScript `encodeURIComponent` leaves unescaped:
alphanumerics and `-_.!~*'()`. -/
def isUriUnreserved (c : Char) : Bool :=
  c.isAlpha || c.isDigit || c == '-' || c == '_' || c == '.' || c == '!' ||
  c == '~' || c == '*' || c == '(' || c == ')' || c == Char.ofNat 39

/-- Percent-encode one byte as `%XX`. -/
def percentEncodeByte (b : Nat) : List Char :=
  [Char.ofNat 37, hexDigitChar (b / 16), hexDigitChar (b % 16)]

/-- `encodeURIComponent` on one character. -/
def encodeChar (c : Char) : List Char :=
  if isUriUnreserved c then [c] else ((utf8BytesOf c).map percentEncodeByte).flatten

/-- JavaScript `encodeURIComponent`. -/
def encodeURIComponent (s : String) : String :=
  ⟨(s.data.map encodeChar).flatten⟩

/-! ## Cache Store (`asset_cache`, src/unnamed/part_002)

One row of the `asset_cache` table.  `content` models the byte payload
opaquely and `headers` the JSON-serialized header map, both as strings;
the cache functions only move them around. -/

structure CacheEntry where
  url : String
  contentType : String
  content : String
  headers : String
  cachedAt : Nat
  expiresAt : Nat
  hitCount : Nat
deriving Repr, DecidableEq

abbrev CacheStore := List CacheEntry

/-- What `getCachedAsset` returns to its caller on a hit (the selected
`content_type, content, headers` columns). -/
structure CacheHit where
  contentType : String
  content : String
  headers : String
deriving Repr, DecidableEq

/-- `INTERVAL '5 minutes'` in seconds: the fixed cache TTL. -/
def cacheTTL : Nat := 300

/-- `getCachedAsset(url)` from src/unnamed/part_002 (lines 264-296):
first `DELETE FROM asset_cache WHERE expires_at < CURRENT_TIMESTAMP`,
then `SELECT ... WHERE url = $1 AND expires_at > CURRENT_TIMESTAMP`;
on a hit `UPDATE asset_cache SET hit_count = hit_count + 1 WHERE url = $1`
and return the selected columns, else return `null` (here `none`).
The pair is (returned value, table after the call). -/
def getCachedAsset (now : Nat) (url : String) (s : CacheStore) :
    Option CacheHit × CacheStore :=
  match (s.filter fun e => decide (now ≤ e.expiresAt)).find?
      (fun e => e.url == url && decide (now < e.expiresAt)) with
  | some e =>
      (some ⟨e.contentType, e.content, e.headers⟩,
        (s.filter fun e => decide (now ≤ e.expiresAt)).map fun x =>
          if x.url == url then { x with hitCount := x.hitCount + 1 } else x)
  | none => (none, s.filter fun e => decide (now ≤ e.expiresAt))

/-- `setCachedAsset(url, contentType, content, headers)` from
src/unnamed/part_002 (lines 298-317): `INSERT ... ON CONFLICT (url) DO
UPDATE`, in both branches storing the new columns and setting
`cached_at = CURRENT_TIMESTAMP`, `expires_at = CURRENT_TIMESTAMP + TTL`.
A fresh row starts with the table default `hit_count = 0`. -/
def setCachedAsset (now : Nat) (url contentType content headers : String)
    (s : CacheStore) : CacheStore :=
  if s.any (fun e => e.url == url) then
    s.map fun e =>
      if e.url == url then
        { e with contentType := contentType, content := content,
                 headers := headers, cachedAt := now,
                 expiresAt := now + cacheTTL }
      else e
  else
    s ++ [{ url := url, contentType := contentType, content := content,
            headers := headers, cachedAt := now, expiresAt := now + cacheTTL,
            hitCount := 0 }]

/-- `clearCache()` from src/unnamed/part_002 (lines 339-347):
`DELETE FROM asset_cache`, returning `result.rowCount`. -/
def clearCache (s : CacheStore) : CacheStore × Nat := ([], s.length)

/-! ## Mapping Store (`url_mappings`, src/database.js and migrations) -/

/-- One row of `url_mappings` after migration 003: id (primary key),
notion_url, the optional unique path, the root flag, the access counter and
the optional last-access time. -/
structure Mapping where
  id : String
  notion_url : String
  path : Option String
  is_root : Bool
  access_count : Nat
  last_accessed : Option Nat
deriving Repr, DecidableEq

abbrev MappingStore := List Mapping

/-- `getMapping(id)` from src/database.js (lines 70-82):
`SELECT notion_url FROM url_mappings WHERE id = $1`; if a row exists,
`UPDATE url_mappings SET access_count = access_count + 1, last_accessed =
CURRENT_TIMESTAMP WHERE id = $1` and return the url, else return `null`. -/
def getMapping (now : Nat) (i : String) (s : MappingStore) :
    Option String × MappingStore :=
  match s.find? (fun m => m.id == i) with
  | some m =>
      (some m.notion_url,
        s.map fun x =>
          if x.id == i then
            { x with access_count := x.access_count + 1,
                     last_accessed := some now }
          else x)
  | none => (none, s)

/-- Resolving the same id `k` times in a row through `getMapping`,
threading the store. -/
def resolveIter (now : Nat) (i : String) : Nat → MappingStore → MappingStore
  | 0, s => s
  | k + 1, s => resolveIter now i k (getMapping now i s).2

/-- The access counter currently recorded for id `i` (first matching row). -/
def accessCountOf (i : String) (s : MappingStore) : Option Nat :=
  (s.find? (fun m => m.id == i)).map (·.access_count)

/-- `createMapping(notionUrl, customId)` from src/database.js (lines 84-96):
`INSERT INTO url_mappings (id, notion_url) VALUES ($1, $2) ON CONFLICT (id)
DO UPDATE SET notion_url = $2`.  The generated or custom id is passed in as
`newId`; the fresh row takes the table defaults for the other columns. -/
def createMapping (newId url : String) (s : MappingStore) :
    String × MappingStore :=
  if s.any (fun m => m.id == newId) then
    (newId, s.map fun m => if m.id == newId then { m with notion_url := url } else m)
  else
    (newId,
      s ++ [{ id := newId, notion_url := url, path := none, is_root := false,
              access_count := 0, last_accessed := none }])

/-- Number of rows currently flagged as root. -/
def rootCount (s : MappingStore) : Nat := s.countP fun m => m.is_root

/-- Two rows clash when they carry the same non-null `path`
(the situation rejected by the partial unique index
`idx_url_mappings_path` of src/migrations/003_add_path_mapping.js). -/
def pathsClash (a b : Mapping) : Bool :=
  match a.path, b.path with
  | some p, some q => p == q
  | _, _ => false

/-- The table satisfies the unique path index: no two rows clash. -/
def uniquePathsB : MappingStore → Bool
  | [] => true
  | m :: t => !(t.any (pathsClash m)) && uniquePathsB t

/-- The `UPDATE` of src/migrations/003_add_path_mapping.js (lines 23-29):
`UPDATE url_mappings SET is_root = TRUE, path = '/' WHERE notion_url = $1 AND
NOT EXISTS (SELECT 1 FROM url_mappings WHERE is_root = TRUE)`.  The
`NOT EXISTS` subquery reads the pre-statement snapshot, so it either guards
the whole statement or none of it.  If the updated table would violate the
unique partial index `idx_url_mappings_path` (created on lines 10-14 of the
same migration), PostgreSQL rejects the statement and the migration runner
(src/migrations.js) rolls the transaction back, modelled by `Except.error`
with the table unchanged. -/
def migration003Up (rootUrl : String) (s : MappingStore) :
    Except String MappingStore :=
  if s.any (fun m => m.is_root) then .ok s
  else
    if uniquePathsB
        (s.map fun m =>
          if m.notion_url == rootUrl then { m with is_root := true, path := some "/" }
          else m) then
      .ok (s.map fun m =>
        if m.notion_url == rootUrl then { m with is_root := true, path := some "/" }
        else m)
    else .error "duplicate key value violates unique index idx_url_mappings_path"

/-- Modelled from the spec: `setRootMapping` is imported by src/server.js
(used by `POST /register` with `isRoot` and by the startup root
configuration) but its definition is not under src/.  Per the spec,
"setting a new root must not leave two simultaneously true": the operation
clears any existing root flag, then marks the mapping whose sourceUrl is
`url` (created with the supplied fresh id when absent) as the root with
path "/", returning its id. -/
def setRootMapping (newId url : String) (s : MappingStore) :
    String × MappingStore :=
  match ((s.map fun m => { m with is_root := false }).find?
      (fun m => m.notion_url == url)) with
  | some m =>
      (m.id,
        (s.map fun m => { m with is_root := false }).map fun x =>
          if x.id == m.id then { x with is_root := true, path := some "/" } else x)
  | none =>
      (newId,
        (s.map fun m => { m with is_root := false }) ++
          [{ id := newId, notion_url := url, path := some "/", is_root := true,
             access_count := 0, last_accessed := none }])

/-- Modelled from the spec: `getRootMapping` is imported by src/server.js but
not defined under src/; it looks up the distinguished root mapping. -/
def getRootMapping (s : MappingStore) : Option Mapping :=
  s.find? fun m => m.is_root

/-- Modelled from the spec: `getMappingByPath` is imported by src/server.js
but not defined under src/; it is the exact (non-null) path match against the
Mapping Store. -/
def getMappingByPath (p : String) (s : MappingStore) : Option Mapping :=
  s.find? fun m => m.path == some p

/-! ## The `/proxy/asset` allow-list (src/server.js lines 375-397) -/

/-- The fixed CDN allow-list of the `GET /proxy/asset` handler. -/
def allowedDomains : List String :=
  ["amazonaws.com", "notion.so", "notion.site", "notion.com"]

/-- The authorization check of the `GET /proxy/asset` handler
(src/server.js line 395): `allowedDomains.some(domain =>
urlObj.hostname.includes(domain))`.  When this is `false` the handler
responds 403 without fetching; when it is `true` it proceeds to the cache
lookup and upstream fetch. -/
def proxyAssetHostAllowed (hostname : String) : Bool :=
  allowedDomains.any fun d => jsIncludes hostname d

/-- The host check as the spec words it, for comparison with
`proxyAssetHostAllowed`: the hostname must match an allow-listed domain
as a suffix. -/
def hostAllowedSpecSuffix (hostname : String) : Bool :=
  allowedDomains.any fun d => jsEndsWith hostname d

/-! ## The HTML rewriting pass of `proxyNotionPage`
(src/server.js lines 610-711) -/

/-- The upstream-internal asset prefix recognised by `proxyNotionPage`. -/
def notionAssetsPre : String := "https://www.notion.so/_assets/"

/-- Characters of `s` after the first occurrence of `pat`, when `pat`
occurs in `s`. -/
def afterFirst (pat : List Char) : List Char → Option (List Char)
  | [] => if startsWithL [] pat then some (([] : List Char).drop pat.length) else none
  | c :: t =>
      if startsWithL (c :: t) pat then some ((c :: t).drop pat.length)
      else afterFirst pat t

/-- The `script[src]` / `link[href]` rewrite of `proxyNotionPage`
(src/server.js lines 649-671): a `https://www.notion.so/_assets/` URL
becomes the relative `/_assets/` path; a URL containing
`notion.site/assets/` becomes the relative `/assets/` path (via the regex
`notion\.site\/assets\/(.+)`, which needs a non-empty remainder); a URL
containing `amazonaws.com` is routed through
`/proxy/asset?url=<encodeURIComponent(url)>`; anything else is unchanged. -/
def rewriteScriptLinkUrl (u : String) : String :=
  if jsStartsWith u notionAssetsPre then
    "/_assets/" ++ ⟨u.data.drop notionAssetsPre.data.length⟩
  else if jsIncludes u "notion.site/assets/" then
    match afterFirst ("notion.site/assets/").data u.data with
    | some rest => if rest.isEmpty then u else "/assets/" ++ (⟨rest⟩ : String)
    | none => u
  else if jsIncludes u "amazonaws.com" then
    "/proxy/asset?url=" ++ encodeURIComponent u
  else u

/-- The `img[src]` rewrite of `proxyNotionPage` (src/server.js lines
674-681): a URL containing `amazonaws.com` or `notion.so` is routed through
`/proxy/asset?url=<encodeURIComponent(url)>`, anything else is unchanged. -/
def rewriteImgSrc (u : String) : String :=
  if jsIncludes u "amazonaws.com" || jsIncludes u "notion.so" then
    "/proxy/asset?url=" ++ encodeURIComponent u
  else u

/-- The element kinds distinguished by the cheerio selectors of
`proxyNotionPage`. -/
inductive Tag
  | script
  | link
  | img
  | anchor
  | other
deriving Repr, DecidableEq

/-- An HTML element as seen by the rewriting pass: its tag and its `src`,
`href` and `style` attributes (absent attributes are `none`). -/
structure Elem where
  tag : Tag
  src : Option String := none
  href : Option String := none
  style : Option String := none
deriving Repr, DecidableEq

/-- The analytics strip of `proxyNotionPage` (src/server.js lines 644-646):
`script` elements whose `src` contains `analytics`, `gtag` or `segment` are
removed. -/
def isAnalyticsScript (e : Elem) : Bool :=
  e.tag == Tag.script &&
    match e.src with
    | some s => jsIncludes s "analytics" || jsIncludes s "gtag" || jsIncludes s "segment"
    | none => false

/-- The per-element attribute rewrite of `proxyNotionPage`: `script` `src`
and `link` `href` through `rewriteScriptLinkUrl`, `img` `src` through
`rewriteImgSrc`; no other element or attribute (in particular no `style`
attribute and no anchor `href`) is touched by this pass. -/
def rewriteElem (e : Elem) : Elem :=
  match e.tag with
  | Tag.script => { e with src := e.src.map rewriteScriptLinkUrl }
  | Tag.link => { e with href := e.href.map rewriteScriptLinkUrl }
  | Tag.img => { e with src := e.src.map rewriteImgSrc }
  | _ => e

/-- The whole asset-reference rewriting pass of `proxyNotionPage`
(src/server.js lines 644-681) over the document's elements. -/
def proxyPageRewrite (es : List Elem) : List Elem :=
  (es.filter fun e => !isAnalyticsScript e).map rewriteElem

/-! ## Link auto-discovery
(the `AUTO_DISCOVER_LINKS` block of the legacy `GET /p/:id` handler,
src/server.js lines 1346-1382) -/

/-- The anchor filter of the auto-discovery block: cheerio selector
`a[href*="notion.so"], a[href*="notion.site"]` plus the inner `includes`
check. -/
def isNotionHref (h : String) : Bool :=
  jsIncludes h "notion.so" || jsIncludes h "notion.site"

/-- One step of collecting discovered links into the `notionLinks` Set:
qualifying hrefs are stripped of query and fragment and deduplicated in
insertion order. -/
def collectStep (acc : List String) (h : String) : List String :=
  if isNotionHref h then
    if acc.contains (stripQueryFragment h) then acc
    else acc ++ [stripQueryFragment h]
  else acc

/-- The `notionLinks` Set built from the page's anchor hrefs
(src/server.js lines 1348-1358), in insertion order. -/
def collectNotionLinks (anchors : List String) : List String :=
  anchors.foldl collectStep []

/-- The registration loop of the auto-discovery block (src/server.js lines
1361-1381): for each collected link, if no mapping has that `notion_url`,
create one with the next fresh id; in both cases record the pending href
replacement `link -> /p/<id>`.  Returns the final store and the replacement
list in execution order.  `freshIds` supplies the `nanoid(10)` values; when
the supply is exhausted the creation is skipped (the theorems assume a
sufficient supply). -/
def registerLinks : List String → MappingStore → List String →
    MappingStore × List (String × String)
  | [], store, _ => (store, [])
  | l :: ls, store, fresh =>
      match store.find? (fun m => m.notion_url == l) with
      | some m =>
          let r := registerLinks ls store fresh
          (r.1, (l, "/p/" ++ m.id) :: r.2)
      | none =>
          match fresh with
          | [] => registerLinks ls store []
          | fid :: rest =>
              let r := registerLinks ls (createMapping fid l store).2 rest
              (r.1, (l, "/p/" ++ fid) :: r.2)

/-- Sequentially apply the replacement list to one href, mirroring the
cheerio update `$('a[href="<link>"]').attr('href', newUrl)` which matches an
anchor by its current href. -/
def applyRewriteStr (rw : List (String × String)) (h : String) : String :=
  rw.foldl (fun x pr => if x == pr.1 then pr.2 else x) h

/-- Sequentially apply the replacement list to all anchor hrefs. -/
def applyRewrites (rw : List (String × String)) (anchors : List String) :
    List String :=
  rw.foldl (fun as pr => as.map fun h => if h == pr.1 then pr.2 else h) anchors

/-- The whole auto-discovery pass: collect and deduplicate the page's
upstream links, look up or create a mapping per link, and apply the href
replacements.  Returns the rewritten anchor hrefs and the final store. -/
def autoDiscoverPass (anchors : List String) (store : MappingStore)
    (freshIds : List String) : List String × MappingStore :=
  (applyRewrites (registerLinks (collectNotionLinks anchors) store freshIds).2 anchors,
    (registerLinks (collectNotionLinks anchors) store freshIds).1)

/-! ## The Resolver (route dispatch and the `GET /*` catch-all,
src/server.js lines 714-861) -/

/-- `getMimeType(path)` from src/server.js (lines 149-176): the static-asset
extension table. -/
def getMimeType (p : String) : Option String :=
  if jsEndsWith p ".js" || jsEndsWith p ".mjs" then some "application/javascript"
  else if jsEndsWith p ".css" then some "text/css"
  else if jsEndsWith p ".png" then some "image/png"
  else if jsEndsWith p ".jpg" || jsEndsWith p ".jpeg" then some "image/jpeg"
  else if jsEndsWith p ".gif" then some "image/gif"
  else if jsEndsWith p ".svg" then some "image/svg+xml"
  else if jsEndsWith p ".ico" then some "image/x-icon"
  else if jsEndsWith p ".woff" then some "font/woff"
  else if jsEndsWith p ".woff2" then some "font/woff2"
  else if jsEndsWith p ".ttf" then some "font/ttf"
  else if jsEndsWith p ".json" then some "application/json"
  else if jsEndsWith p ".xml" then some "application/xml"
  else none

/-- What a GET request path resolves to. -/
inductive Resolution
  | notFound
  | info
  | admin
  | directAsset (upstreamUrl : String)
  | page (sourceUrl : String)
deriving Repr, DecidableEq

/-- The skip list at the top of the `GET /*` catch-all handler
(src/server.js lines 796-806). -/
def reservedCatchAll (p : String) : Bool :=
  jsStartsWith p "/_assets/" || jsStartsWith p "/assets/" ||
  jsStartsWith p "/proxy/" || jsStartsWith p "/p/" ||
  jsStartsWith p "/pixel/" ||
  p == "/list" || p == "/health" || p == "/cache" || p == "/register"

/-- The `GET /*` catch-all handler (src/server.js lines 792-861): skip
reserved routes (404); if the extension is in the static-asset table, proxy
the path directly against `https://www.notion.so` bypassing the Mapping
Store; otherwise try the exact path mapping; otherwise 404. -/
def catchAllResolve (s : MappingStore) (p : String) : Resolution :=
  if reservedCatchAll p then .notFound
  else
    match getMimeType p with
    | some _ => .directAsset ("https://www.notion.so" ++ p)
    | none =>
        match getMappingByPath p s with
        | some m => .page m.notion_url
        | none => .notFound

/-- Express matches `'/p/:id'` when the path is `/p/` followed by one
non-empty slash-free segment. -/
def isLegacyPath (p : String) : Bool :=
  jsStartsWith p "/p/" && !(p.data.drop 3).isEmpty && !(p.data.drop 3).any (· == '/')

/-- The id segment of a legacy `/p/:id` path. -/
def legacyIdOf (p : String) : String := ⟨p.data.drop 3⟩

/-- GET-route dispatch of src/server.js in registration order:
`/_assets/*` and `/assets/*` (direct upstream asset passthrough),
`/proxy/asset`, `/p/:id` (legacy id lookup through `getMapping`),
`/list`, `/health`, `/cache/stats`, `/` (root mapping, else the configured
`ROOT_NOTION_PAGE`, else the info response), `/pixel/:name`, and finally the
`GET /*` catch-all.  `rootEnv = ""` models an unset `ROOT_NOTION_PAGE`. -/
def routeResolve (now : Nat) (rootEnv : String) (s : MappingStore)
    (p : String) : Resolution :=
  if jsStartsWith p "/_assets/" then .directAsset ("https://www.notion.so" ++ p)
  else if jsStartsWith p "/assets/" then
    .directAsset ("https://www.notion.so/_assets/" ++ ⟨p.data.drop 8⟩)
  else if p == "/proxy/asset" then .admin
  else if isLegacyPath p then
    match (getMapping now (legacyIdOf p) s).1 with
    | some u => .page u
    | none => .notFound
  else if p == "/list" || p == "/health" || p == "/cache/stats" then .admin
  else if p == "/" then
    match getRootMapping s with
    | some m => .page m.notion_url
    | none => if rootEnv == "" then .info else .page rootEnv
  else if jsStartsWith p "/pixel/" then .admin
  else catchAllResolve s p

/-! ## Shared lemmas -/

theorem find?_unique {α : Type u} (p : α → Bool) (l : List α) (a : α)
    (ha : a ∈ l) (hpa : p a = true) (huniq : ∀ b ∈ l, p b = true → b = a) :
    l.find? p = some a := by
  induction l with
  | nil => cases ha
  | cons c t ih =>
      by_cases hc : p c = true
      · have hca : c = a := huniq c (List.mem_cons_self c t) hc
        subst hca
        simp [List.find?_cons_of_pos _ hc]
      · rw [List.find?_cons_of_neg _ (by simpa using hc)]
        have ha' : a ∈ t := by
          rcases List.mem_cons.mp ha with h | h
          · subst h; exact absurd hpa hc
          · exact h
        exact ih ha' fun b hb hpb => huniq b (List.mem_cons_of_mem _ hb) hpb


theorem setCachedAsset_fields (now : Nat) (url ct ctn hd : String)
    (s : CacheStore) :
    ∀ e ∈ setCachedAsset now url ct ctn hd s, e.url = url →
      e.expiresAt = now + cacheTTL ∧ e.cachedAt = now ∧
      e.contentType = ct ∧ e.content = ctn ∧ e.headers = hd := by
  intro e he hurl
  unfold setCachedAsset at he
  by_cases h : s.any (fun e => e.url == url) = true
  · rw [if_pos h] at he
    rcases List.mem_map.mp he with ⟨x, hx, rfl⟩
    by_cases hxu : (x.url == url) = true
    · simp [hxu]
    · exact absurd (by simpa [hxu] using hurl) (by simpa using hxu)
  · rw [if_neg h] at he
    rcases List.mem_append.mp he with hx | hx
    · exfalso
      have hall : s.any (fun e => e.url == url) = true :=
        List.any_eq_true.mpr ⟨e, hx, by simpa using hurl⟩
      exact h hall
    · have he2 : e = (⟨url, ct, ctn, hd, now, now + cacheTTL, 0⟩ : CacheEntry) := by
        simpa using hx
      subst he2
      exact ⟨rfl, rfl, rfl, rfl, rfl⟩

theorem find_after_update (now : Nat) (url ct ctn hd : String) :
    ∀ s : CacheStore, s.any (fun e => e.url == url) = true →
      ∃ e, (((s.map fun e =>
            if e.url == url then
              { e with contentType := ct, content := ctn, headers := hd,
                       cachedAt := now, expiresAt := now + cacheTTL }
            else e).filter fun x => decide (now ≤ x.expiresAt)).find?
          (fun x => x.url == url && decide (now < x.expiresAt))) = some e ∧
        e.contentType = ct ∧ e.content = ctn ∧ e.headers = hd := by
  intro s
  induction s with
  | nil => intro h; cases h
  | cons x t ih =>
      intro h
      have hlt : now < now + cacheTTL := by
        have h300 : cacheTTL = 300 := rfl
        omega
      have hle : now ≤ now + cacheTTL := Nat.le_add_right now cacheTTL
      by_cases hx : (x.url == url) = true
      · have heq : x.url = url := by simpa using hx
        refine ⟨{ x with contentType := ct, content := ctn, headers := hd,
                         cachedAt := now, expiresAt := now + cacheTTL },
          ?_, rfl, rfl, rfl⟩
        simp [List.filter_cons, List.find?_cons, heq, hle, hlt]
      · have hx' : (x.url == url) = false := by simpa using hx
        have ht : t.any (fun e => e.url == url) = true := by
          rcases List.any_eq_true.mp h with ⟨y, hy, hyp⟩
          rcases List.mem_cons.mp hy with rfl | hy'
          · exact absurd hyp hx
          · exact List.any_eq_true.mpr ⟨y, hy', hyp⟩
        rcases ih ht with ⟨e, hfind, h1, h2, h3⟩
        refine ⟨e, ?_, h1, h2, h3⟩
        rw [List.map_cons, if_neg (by simp [hx'])]
        by_cases hq : decide (now ≤ x.expiresAt) = true
        · have hpx : (x.url == url && decide (now < x.expiresAt)) = false := by
            simp [hx']
          simpa [List.filter_cons, hq, List.find?_cons, hpx] using hfind
        · have hq' : decide (now ≤ x.expiresAt) = false := by simpa using hq
          simpa [List.filter_cons, hq'] using hfind

theorem find_after_append (now : Nat) (url ct ctn hd : String)
    (s : CacheStore) (h : s.any (fun e => e.url == url) = false) :
    ∃ e, (((s ++ [(⟨url, ct, ctn, hd, now, now + cacheTTL, 0⟩ : CacheEntry)]).filter
          fun x => decide (now ≤ x.expiresAt)).find?
        (fun x => x.url == url && decide (now < x.expiresAt))) = some e ∧
      e.contentType = ct ∧ e.content = ctn ∧ e.headers = hd := by
  refine ⟨⟨url, ct, ctn, hd, now, now + cacheTTL, 0⟩, ?_, rfl, rfl, rfl⟩
  rw [List.filter_append, List.find?_append]
  have h1 : (s.filter fun x => decide (now ≤ x.expiresAt)).find?
      (fun x => x.url == url && decide (now < x.expiresAt)) = none := by
    rw [List.find?_eq_none]
    intro x hxmem hpx
    have hxs : x ∈ s := (List.mem_filter.mp hxmem).1
    have hxu : (x.url == url) = true := by
      simp only [Bool.and_eq_true] at hpx
      exact hpx.1
    have hany : s.any (fun e => e.url == url) = true :=
      List.any_eq_true.mpr ⟨x, hxs, hxu⟩
    rw [h] at hany
    cases hany
  rw [h1]
  have hlt : now < now + cacheTTL := by
    have h300 : cacheTTL = 300 := rfl
    omega
  simp only [Option.none_or]
  simp [List.filter_cons, List.find?_cons, Nat.le_add_right, hlt]

theorem put_then_find (now : Nat) (url ct ctn hd : String) (s : CacheStore) :
    ∃ e, ((setCachedAsset now url ct ctn hd s).filter
          fun x => decide (now ≤ x.expiresAt)).find?
        (fun x => x.url == url && decide (now < x.expiresAt)) = some e ∧
      e.contentType = ct ∧ e.content = ctn ∧ e.headers = hd := by
  unfold setCachedAsset
  by_cases h : s.any (fun e => e.url == url) = true
  · rw [if_pos h]
    exact find_after_update now url ct ctn hd s h
  · rw [if_neg h]
    exact find_after_append now url ct ctn hd s (by simpa using h)

/-! ## Claims about the Cache Store -/

/-- Claim C1: for every url, Cache Store `get(url)` returns an entry iff an
entry for that url is present and its `expiresAt` lies strictly in the
future; an expired entry behaves identically to an absent one; and on every
hit the entry's `hitCount` is incremented.  The `Nodup` hypothesis reflects
the `url` primary key of `asset_cache`. -/
theorem cacheGet_hit_iff_fresh (now : Nat) (url : String) (s : CacheStore)
    (hu : (s.map CacheEntry.url).Nodup) :
    ((getCachedAsset now url s).1.isSome = true ↔
      ∃ e ∈ s, e.url = url ∧ now < e.expiresAt) ∧
    ∀ e ∈ s, e.url = url → now < e.expiresAt →
      (getCachedAsset now url s).1 = some ⟨e.contentType, e.content, e.headers⟩ ∧
      { e with hitCount := e.hitCount + 1 } ∈ (getCachedAsset now url s).2 := by
  constructor
  · unfold getCachedAsset
    cases hf : (s.filter fun e => decide (now ≤ e.expiresAt)).find?
        (fun e => e.url == url && decide (now < e.expiresAt)) with
    | none =>
        simp only [Option.isSome_none, Bool.false_eq_true, false_iff]
        rintro ⟨e, he, hurl, hlt⟩
        have hmem : e ∈ s.filter fun e => decide (now ≤ e.expiresAt) := by
          simp [List.mem_filter, he, Nat.le_of_lt hlt]
        have hnone := List.find?_eq_none.mp hf e hmem
        simp [hurl, hlt] at hnone
    | some e =>
        simp only [Option.isSome_some, true_iff]
        have hmem := List.mem_of_find?_eq_some hf
        have hp := List.find?_some hf
        have hes : e ∈ s := (List.mem_filter.mp hmem).1
        simp only [Bool.and_eq_true, beq_iff_eq, decide_eq_true_eq] at hp
        exact ⟨e, hes, hp.1, hp.2⟩
  · intro e he hurl hlt
    have hmem : e ∈ s.filter fun e => decide (now ≤ e.expiresAt) := by
      simp [List.mem_filter, he, Nat.le_of_lt hlt]
    have hfind : (s.filter fun e => decide (now ≤ e.expiresAt)).find?
        (fun e => e.url == url && decide (now < e.expiresAt)) = some e := by
      apply find?_unique _ _ _ hmem
      · simp [hurl, hlt]
      · intro b hb hpb
        have hbs : b ∈ s := (List.mem_filter.mp hb).1
        simp only [Bool.and_eq_true, beq_iff_eq, decide_eq_true_eq] at hpb
        exact List.inj_on_of_nodup_map hu hbs he (by rw [hpb.1, hurl])
    unfold getCachedAsset
    rw [hfind]
    refine ⟨rfl, ?_⟩
    exact List.mem_map.mpr ⟨e, hmem, by simp [hurl]⟩

/-- Witness for C1 at a concrete one-entry store read before its expiry. -/
theorem cacheGet_hit_iff_fresh_witness :
    ((getCachedAsset 10 "u" [⟨"u", "ct", "c", "h", 0, 20, 0⟩]).1.isSome = true ↔
      ∃ e ∈ [(⟨"u", "ct", "c", "h", 0, 20, 0⟩ : CacheEntry)],
        e.url = "u" ∧ 10 < e.expiresAt) ∧
    ∀ e ∈ [(⟨"u", "ct", "c", "h", 0, 20, 0⟩ : CacheEntry)],
      e.url = "u" → 10 < e.expiresAt →
      (getCachedAsset 10 "u" [⟨"u", "ct", "c", "h", 0, 20, 0⟩]).1 =
        some ⟨e.contentType, e.content, e.headers⟩ ∧
      { e with hitCount := e.hitCount + 1 } ∈
        (getCachedAsset 10 "u" [⟨"u", "ct", "c", "h", 0, 20, 0⟩]).2 :=
  cacheGet_hit_iff_fresh 10 "u" [⟨"u", "ct", "c", "h", 0, 20, 0⟩] (by decide)

/-- Claim C2: a `get(url)` immediately after `put(url, contentType, payload,
headers)` returns the same payload and content type; the same read once the
fixed 5-minute TTL has elapsed returns absent; and every put, creating or
overwriting, resets the entry's `expiresAt` to the put time plus the TTL. -/
theorem cachePut_get_roundtrip (now later : Nat)
    (url ct ctn hd : String) (s : CacheStore) :
    (getCachedAsset now url (setCachedAsset now url ct ctn hd s)).1 =
      some ⟨ct, ctn, hd⟩ ∧
    (now + cacheTTL ≤ later →
      (getCachedAsset later url (setCachedAsset now url ct ctn hd s)).1 = none) ∧
    ∀ e ∈ setCachedAsset now url ct ctn hd s, e.url = url →
      e.expiresAt = now + cacheTTL ∧ e.cachedAt = now := by
  refine ⟨?_, ?_, ?_⟩
  · rcases put_then_find now url ct ctn hd s with ⟨e, hf, h1, h2, h3⟩
    unfold getCachedAsset
    rw [hf]
    simp [h1, h2, h3]
  · intro hlater
    have hf : ((setCachedAsset now url ct ctn hd s).filter
          fun x => decide (later ≤ x.expiresAt)).find?
        (fun x => x.url == url && decide (later < x.expiresAt)) = none := by
      rw [List.find?_eq_none]
      intro x hx hpx
      have hxs : x ∈ setCachedAsset now url ct ctn hd s :=
        (List.mem_filter.mp hx).1
      simp only [Bool.and_eq_true, beq_iff_eq, decide_eq_true_eq] at hpx
      have hexp := (setCachedAsset_fields now url ct ctn hd s x hxs hpx.1).1
      have := hpx.2
      omega
    unfold getCachedAsset
    rw [hf]
  · intro e he hurl
    exact ⟨(setCachedAsset_fields now url ct ctn hd s e he hurl).1,
      (setCachedAsset_fields now url ct ctn hd s e he hurl).2.1⟩

/-- Witness for C2: put at time 7, read back at time 7 and at time 307. -/
theorem cachePut_get_roundtrip_witness :
    (getCachedAsset 7 "u" (setCachedAsset 7 "u" "ct" "c" "h" [])).1 =
      some ⟨"ct", "c", "h"⟩ ∧
    (7 + cacheTTL ≤ 307 →
      (getCachedAsset 307 "u" (setCachedAsset 7 "u" "ct" "c" "h" [])).1 = none) ∧
    ∀ e ∈ setCachedAsset 7 "u" "ct" "c" "h" ([] : CacheStore), e.url = "u" →
      e.expiresAt = 7 + cacheTTL ∧ e.cachedAt = 7 :=
  cachePut_get_roundtrip 7 307 "u" "ct" "c" "h" []

/-- Claim C9: `clear()` deletes every cached entry, returns the number of
entries deleted, and any `get(url)` performed afterwards returns absent for
every previously cached key. -/
theorem cacheClear_then_get_absent (now : Nat) (url : String) (s : CacheStore) :
    (clearCache s).2 = s.length ∧
    (getCachedAsset now url (clearCache s).1).1 = none :=
  ⟨rfl, rfl⟩

/-- Claim C10: every `getCachedAsset` first deletes all expired entries for
every key, so immediately after any read, hit or miss, no surviving entry
has an `expiresAt` strictly in the past. -/
theorem cacheGet_global_purge (now : Nat) (url : String) (s : CacheStore) :
    ∀ e ∈ (getCachedAsset now url s).2, now ≤ e.expiresAt := by
  intro e he
  unfold getCachedAsset at he
  cases hf : (s.filter fun e => decide (now ≤ e.expiresAt)).find?
      (fun e => e.url == url && decide (now < e.expiresAt)) with
  | none =>
      rw [hf] at he
      have := (List.mem_filter.mp he).2
      simpa using this
  | some x =>
      rw [hf] at he
      rcases List.mem_map.mp he with ⟨y, hy, rfl⟩
      have hyexp : now ≤ y.expiresAt := by
        have := (List.mem_filter.mp hy).2
        simpa using this
      by_cases hyu : (y.url == url) = true
      · simpa [hyu] using hyexp
      · simp only [hyu, Bool.false_eq_true, if_false]
        exact hyexp

/-- Witness for C10: after a read at time 5 the surviving entry is still
unexpired. -/
theorem cacheGet_global_purge_witness :
    (5 : Nat) ≤ (⟨"u", "ct", "c", "h", 0, 400, 1⟩ : CacheEntry).expiresAt :=
  cacheGet_global_purge 5 "u" [⟨"u", "ct", "c", "h", 0, 400, 0⟩] _ (by decide)

/-! ## Claims about the Mapping Store -/

theorem getMapping_step (now : Nat) (i : String) (s : MappingStore)
    (hn : (s.map Mapping.id).Nodup) (m : Mapping) (hm : m ∈ s) (hid : m.id = i) :
    (getMapping now i s).1 = some m.notion_url ∧
    { m with access_count := m.access_count + 1, last_accessed := some now } ∈
      (getMapping now i s).2 ∧
    (getMapping now i s).2.map Mapping.id = s.map Mapping.id := by
  have hfind : s.find? (fun x => x.id == i) = some m := by
    apply find?_unique _ _ _ hm
    · simp [hid]
    · intro b hb hpb
      have hb2 : b.id = i := by simpa using hpb
      exact List.inj_on_of_nodup_map hn hb hm (by rw [hb2, hid])
  unfold getMapping
  rw [hfind]
  refine ⟨rfl, ?_, ?_⟩
  · exact List.mem_map.mpr ⟨m, hm, by simp [hid]⟩
  · rw [List.map_map]
    apply List.map_congr_left
    intro a _
    simp only [Function.comp_apply]
    by_cases h : (a.id == i) = true
    · rw [if_pos h]
    · rw [if_neg h]

theorem resolveIter_spec (now : Nat) (i u : String) :
    ∀ (k c : Nat) (s : MappingStore), (s.map Mapping.id).Nodup →
      (∃ m ∈ s, m.id = i ∧ m.notion_url = u ∧ m.access_count = c) →
      (resolveIter now i k s).map Mapping.id = s.map Mapping.id ∧
      ∃ m ∈ resolveIter now i k s,
        m.id = i ∧ m.notion_url = u ∧ m.access_count = c + k := by
  intro k
  induction k with
  | zero =>
      intro c s _ hm
      exact ⟨rfl, by simpa using hm⟩
  | succ k ih =>
      intro c s hn hm
      rcases hm with ⟨m, hms, hid, hurl, hcnt⟩
      rcases getMapping_step now i s hn m hms hid with ⟨_, hmem2, hids⟩
      have hn2 : ((getMapping now i s).2.map Mapping.id).Nodup := by
        rw [hids]; exact hn
      have hm2 : ∃ m2 ∈ (getMapping now i s).2,
          m2.id = i ∧ m2.notion_url = u ∧ m2.access_count = c + 1 := by
        refine ⟨_, hmem2, by simpa using hid, by simpa using hurl, by simp [hcnt]⟩
      rcases ih (c + 1) (getMapping now i s).2 hn2 hm2 with ⟨hids2, m3, hm3, h3⟩
      refine ⟨?_, m3, ?_, h3.1, h3.2.1, by omega⟩
      · show (resolveIter now i k (getMapping now i s).2).map Mapping.id = _
        rw [hids2, hids]
      · exact hm3

/-- Claim C3: for every registered Mapping, resolving it by id returns the
originally registered sourceUrl, and each successful resolution increments
that mapping's accessCount, so after `k` resolutions the counter reads
`c + k` and one more resolution strictly increases it.  The `Nodup`
hypothesis reflects the `id` primary key of `url_mappings`. -/
theorem mapping_resolve_returns_url_and_increments (now : Nat) (i u : String)
    (c k : Nat) (s : MappingStore) (hn : (s.map Mapping.id).Nodup)
    (hm : ∃ m ∈ s, m.id = i ∧ m.notion_url = u ∧ m.access_count = c) :
    (getMapping now i (resolveIter now i k s)).1 = some u ∧
    accessCountOf i (resolveIter now i k s) = some (c + k) ∧
    ∃ a b : Nat, accessCountOf i (resolveIter now i k s) = some a ∧
      accessCountOf i (resolveIter now i (k + 1) s) = some b ∧ a < b := by
  have hspec := resolveIter_spec now i u k c s hn hm
  rcases hspec with ⟨hids, mk, hmk, hkid, hkurl, hkcnt⟩
  have hnk : ((resolveIter now i k s).map Mapping.id).Nodup := by
    rw [hids]; exact hn
  have hfind : (resolveIter now i k s).find? (fun x => x.id == i) = some mk := by
    apply find?_unique _ _ _ hmk
    · simp [hkid]
    · intro b hb hpb
      have hb2 : b.id = i := by simpa using hpb
      exact List.inj_on_of_nodup_map hnk hb hmk (by rw [hb2, hkid])
  have hspec1 := resolveIter_spec now i u (k + 1) c s hn hm
  rcases hspec1 with ⟨hids1, mk1, hmk1, h1id, _, h1cnt⟩
  have hnk1 : ((resolveIter now i (k + 1) s).map Mapping.id).Nodup := by
    rw [hids1]; exact hn
  have hfind1 : (resolveIter now i (k + 1) s).find? (fun x => x.id == i) =
      some mk1 := by
    apply find?_unique _ _ _ hmk1
    · simp [h1id]
    · intro b hb hpb
      have hb2 : b.id = i := by simpa using hpb
      exact List.inj_on_of_nodup_map hnk1 hb hmk1 (by rw [hb2, h1id])
  refine ⟨?_, ?_, c + k, c + (k + 1), ?_, ?_, by omega⟩
  · unfold getMapping
    rw [hfind]
    simp [hkurl]
  · unfold accessCountOf
    rw [hfind]
    simp [hkcnt]
  · unfold accessCountOf
    rw [hfind]
    simp [hkcnt]
  · unfold accessCountOf
    rw [hfind1]
    simp [h1cnt]

/-- Witness for C3: a one-row store resolved twice, then a third time. -/
theorem mapping_resolve_returns_url_and_increments_witness :
    (getMapping 3 "id1"
        (resolveIter 3 "id1" 2 [⟨"id1", "U", none, false, 0, none⟩])).1 =
      some "U" ∧
    accessCountOf "id1"
        (resolveIter 3 "id1" 2 [⟨"id1", "U", none, false, 0, none⟩]) =
      some (0 + 2) ∧
    ∃ a b : Nat,
      accessCountOf "id1"
          (resolveIter 3 "id1" 2 [⟨"id1", "U", none, false, 0, none⟩]) =
        some a ∧
      accessCountOf "id1"
          (resolveIter 3 "id1" (2 + 1) [⟨"id1", "U", none, false, 0, none⟩]) =
        some b ∧ a < b :=
  mapping_resolve_returns_url_and_increments 3 "id1" "U" 0 2
    [⟨"id1", "U", none, false, 0, none⟩] (by decide)
    ⟨⟨"id1", "U", none, false, 0, none⟩, by decide, rfl, rfl, rfl⟩

theorem uniquePathsB_countP (p : String) :
    ∀ l : MappingStore, uniquePathsB l = true →
      l.countP (fun m => m.path == some p) ≤ 1 := by
  intro l
  induction l with
  | nil => intro _; simp
  | cons m t ih =>
      intro h
      have h' := h
      unfold uniquePathsB at h'
      simp only [Bool.and_eq_true, Bool.not_eq_true'] at h'
      rcases h' with ⟨hclash, ht⟩
      rw [List.countP_cons]
      by_cases hm : (m.path == some p) = true
      · have hmp : m.path = some p := by simpa using hm
        have hzero : t.countP (fun m => m.path == some p) = 0 := by
          rw [List.countP_eq_zero]
          intro x hx hxp
          have hxp2 : x.path = some p := by simpa using hxp
          have hcl : pathsClash m x = true := by
            unfold pathsClash
            rw [hmp, hxp2]
            simp
          have hany2 : t.any (pathsClash m) = true := List.any_eq_true.mpr ⟨x, hx, hcl⟩
          rw [hclash] at hany2
          cases hany2
        rw [hzero, hm]
        simp
      · have hm' : (m.path == some p) = false := by simpa using hm
        rw [hm']
        simpa using ih ht

theorem migration003_preserves_single_root (rootUrl : String)
    (s : MappingStore) (hroot : rootCount s ≤ 1) (t : MappingStore)
    (hup : migration003Up rootUrl s = .ok t) : rootCount t ≤ 1 := by
  unfold migration003Up at hup
  by_cases hany : s.any (fun m => m.is_root) = true
  · rw [if_pos hany] at hup
    cases hup
    exact hroot
  · rw [if_neg hany] at hup
    by_cases hu : uniquePathsB
        (s.map fun m =>
          if m.notion_url == rootUrl then { m with is_root := true, path := some "/" }
          else m) = true
    · rw [if_pos hu] at hup
      cases hup
      have hsub : ∀ x ∈ s.map fun m =>
          if m.notion_url == rootUrl then { m with is_root := true, path := some "/" }
          else m, x.is_root = true → (x.path == some "/") = true := by
        intro x hx hxr
        rcases List.mem_map.mp hx with ⟨y, hy, rfl⟩
        by_cases hyu : (y.notion_url == rootUrl) = true
        · rw [if_pos hyu]
          simp
        · rw [if_neg hyu] at hxr ⊢
          have : y.is_root = false := by
            by_contra hcon
            exact hany (List.any_eq_true.mpr ⟨y, hy, by simpa using hcon⟩)
          rw [this] at hxr
          cases hxr
      calc rootCount (s.map fun m =>
              if m.notion_url == rootUrl then { m with is_root := true, path := some "/" }
              else m)
          ≤ (s.map fun m =>
              if m.notion_url == rootUrl then { m with is_root := true, path := some "/" }
              else m).countP (fun m => m.path == some "/") := by
            unfold rootCount
            exact List.countP_mono_left hsub
        _ ≤ 1 := uniquePathsB_countP "/" _ hu
    · rw [if_neg hu] at hup
      cases hup

theorem cleared_ids (s : MappingStore) :
    ((s.map fun m => { m with is_root := false }).map Mapping.id) =
      s.map Mapping.id := by
  rw [List.map_map]
  apply List.map_congr_left
  intro a _
  rfl

theorem setRootMapping_single_root (newId url : String) (s : MappingStore)
    (hn : (s.map Mapping.id).Nodup) :
    rootCount (setRootMapping newId url s).2 ≤ 1 := by
  have hcl : ∀ x ∈ s.map fun m => { m with is_root := false },
      x.is_root = false := by
    intro x hx
    rcases List.mem_map.mp hx with ⟨y, _, rfl⟩
    rfl
  unfold setRootMapping
  cases hfind : (s.map fun m => { m with is_root := false }).find?
      (fun m => m.notion_url == url) with
  | some m =>
      unfold rootCount
      rw [List.countP_map]
      have hb : ((s.map fun m => { m with is_root := false }).countP
          ((fun m => m.is_root) ∘ fun x =>
            if x.id == m.id then { x with is_root := true, path := some "/" }
            else x)) ≤
          ((s.map fun m => { m with is_root := false }).countP
            (fun x => x.id == m.id)) := by
        apply List.countP_mono_left
        intro x hx hroot
        simp only [Function.comp_apply] at hroot
        by_cases hxm : (x.id == m.id) = true
        · exact hxm
        · rw [if_neg hxm] at hroot
          rw [hcl x hx] at hroot
          cases hroot
      refine le_trans hb ?_
      have hc : ((s.map fun m => { m with is_root := false }).map
            Mapping.id).countP (fun x => x == m.id) =
          ((s.map fun m => { m with is_root := false }).countP
            (fun x => x.id == m.id)) := by
        rw [List.countP_map]
        rfl
      rw [← hc, cleared_ids s]
      exact List.nodup_iff_count_le_one.mp hn m.id
  | none =>
      unfold rootCount
      rw [List.countP_append]
      have h0 : (s.map fun m => { m with is_root := false }).countP
          (fun m => m.is_root) = 0 := by
        rw [List.countP_eq_zero]
        intro x hx hxr
        rw [hcl x hx] at hxr
        cases hxr
      rw [h0]
      simp

/-- Claim C4: at most one Mapping has `isRoot = true` at any time, and every
operation that designates a new root preserves this: a successful run of the
path-mapping migration (whose "two rows share the configured root URL" case
is rejected by the unique path index, rolling the transaction back), and
`setRootMapping` (spec-modelled; used both by registration with `isRoot` and
by the startup root configuration).  The `Nodup` hypothesis is the `id`
primary key. -/
theorem root_invariant_preserved (rootUrl newId url : String)
    (s t : MappingStore) (hn : (s.map Mapping.id).Nodup)
    (hroot : rootCount s ≤ 1) (hup : migration003Up rootUrl s = .ok t) :
    rootCount t ≤ 1 ∧ rootCount (setRootMapping newId url s).2 ≤ 1 :=
  ⟨migration003_preserves_single_root rootUrl s hroot t hup,
    setRootMapping_single_root newId url s hn⟩

/-- Witness for C4: a one-row store through the migration and through
`setRootMapping`. -/
theorem root_invariant_preserved_witness :
    rootCount [(⟨"a", "U", some "/", true, 0, none⟩ : Mapping)] ≤ 1 ∧
    rootCount (setRootMapping "r1" "V" [⟨"a", "U", none, false, 0, none⟩]).2 ≤ 1 :=
  root_invariant_preserved "U" "r1" "V" [⟨"a", "U", none, false, 0, none⟩]
    [⟨"a", "U", some "/", true, 0, none⟩] (by decide) (by decide) rfl

/-! ## Claims about the asset-proxy allow-list and the Rewriter -/

theorem startsWithL_same : ∀ p r : List Char, startsWithL (p ++ r) p = true := by
  intro p
  induction p with
  | nil => intro r; cases r <;> rfl
  | cons c ps ih =>
      intro r
      simp only [List.cons_append, startsWithL, beq_self_eq_true, Bool.true_and]
      exact ih r

/-- Claim C5 (code bug): the `GET /proxy/asset` authorization check is
`urlObj.hostname.includes(domain)`, a substring test, so the hostname
`notion.so.evil.com` — which matches no allow-listed domain as a suffix —
passes the check and the handler proceeds to the upstream fetch instead of
returning 403; a genuinely allow-listed host like `s3.amazonaws.com` passes
both the code's check and the spec's suffix check. -/
theorem proxyAsset_allowlist_substring_bug :
    proxyAssetHostAllowed "notion.so.evil.com" = true ∧
    hostAllowedSpecSuffix "notion.so.evil.com" = false ∧
    proxyAssetHostAllowed "s3.amazonaws.com" = true ∧
    hostAllowedSpecSuffix "s3.amazonaws.com" = true := by
  refine ⟨rfl, rfl, rfl, rfl⟩

/-- Claim C6 counterexample: `proxyNotionPage` rewrites an `img` whose `src`
is the upstream-internal asset URL `https://www.notion.so/_assets/x.png` to
the asset proxy, not to the relative `/_assets/x.png` the claim requires;
and an inline `style` `url(...)` reference to an allow-listed CDN is left
completely unchanged by the pass. -/
theorem rewrite_pass_counterexample :
    rewriteImgSrc "https://www.notion.so/_assets/x.png" =
      "/proxy/asset?url=https%3A%2F%2Fwww.notion.so%2F_assets%2Fx.png" ∧
    rewriteImgSrc "https://www.notion.so/_assets/x.png" ≠ "/_assets/x.png" ∧
    proxyPageRewrite
        [⟨Tag.other, none, none,
          some "background-image: url(https://s3.amazonaws.com/f.png)"⟩] =
      [⟨Tag.other, none, none,
        some "background-image: url(https://s3.amazonaws.com/f.png)"⟩] := by
  refine ⟨rfl, by decide, rfl⟩

/-- Claim C6 as amended: in `proxyNotionPage`, script `src` and link `href`
URLs under `https://www.notion.so/_assets/` become relative `/_assets/`
paths, a URL containing `notion.site/assets/` becomes the relative
`/assets/` path formed from what follows the first occurrence of the
pattern (provided that remainder is non-empty, as the regex `(.+)`
requires; otherwise the URL stays unchanged), and `amazonaws.com` URLs are
routed through the asset proxy; img `src` URLs containing `amazonaws.com`
or `notion.so` (internal asset URLs included) are routed through the asset
proxy; all other script/link/img references are unchanged; and inline
`style` attributes are not rewritten at all by this pass. -/
theorem rewrite_pass_amended (rest u v w x y rest2 : String) (es : List Elem)
    (hu1 : jsStartsWith u notionAssetsPre = false)
    (hu2 : jsIncludes u "notion.site/assets/" = false)
    (hu3 : jsIncludes u "amazonaws.com" = true)
    (hv1 : jsIncludes v "amazonaws.com" = false)
    (hv2 : jsIncludes v "notion.so" = true)
    (hw1 : jsIncludes w "amazonaws.com" = false)
    (hw2 : jsIncludes w "notion.so" = false)
    (hx1 : jsStartsWith x notionAssetsPre = false)
    (hx2 : jsIncludes x "notion.site/assets/" = false)
    (hx3 : jsIncludes x "amazonaws.com" = false)
    (hy1 : jsStartsWith y notionAssetsPre = false)
    (hy2 : jsIncludes y "notion.site/assets/" = true)
    (hy3 : afterFirst ("notion.site/assets/").data y.data = some rest2.data)
    (hy4 : rest2 ≠ "") :
    rewriteScriptLinkUrl (notionAssetsPre ++ rest) = "/_assets/" ++ rest ∧
    rewriteScriptLinkUrl y = "/assets/" ++ rest2 ∧
    rewriteScriptLinkUrl u = "/proxy/asset?url=" ++ encodeURIComponent u ∧
    rewriteImgSrc u = "/proxy/asset?url=" ++ encodeURIComponent u ∧
    rewriteImgSrc v = "/proxy/asset?url=" ++ encodeURIComponent v ∧
    rewriteImgSrc w = w ∧
    rewriteScriptLinkUrl x = x ∧
    (proxyPageRewrite es).map Elem.style =
      (es.filter fun e => !isAnalyticsScript e).map Elem.style := by
  have hstyle : ∀ e : Elem, (rewriteElem e).style = e.style := by
    intro e
    cases e with
    | mk tag src href style => cases tag <;> rfl
  refine ⟨?_, ?_, ?_, ?_, ?_, ?_, ?_, ?_⟩
  · have hsw : jsStartsWith (notionAssetsPre ++ rest) notionAssetsPre = true := by
      unfold jsStartsWith
      rw [String.data_append]
      exact startsWithL_same _ _
    unfold rewriteScriptLinkUrl
    rw [if_pos hsw, String.data_append, List.drop_left]
  · have hne2 : ¬ (rest2.data.isEmpty = true) := by
      intro hc
      apply hy4
      have hd : rest2.data = [] := by simpa using hc
      cases rest2 with
      | mk l =>
          simp only at hd
          subst hd
          rfl
    unfold rewriteScriptLinkUrl
    rw [if_neg (by simp [hy1]), if_pos hy2, hy3]
    show (if rest2.data.isEmpty = true then y
        else "/assets/" ++ (⟨rest2.data⟩ : String)) = "/assets/" ++ rest2
    rw [if_neg hne2]
  · unfold rewriteScriptLinkUrl
    rw [if_neg (by simp [hu1]), if_neg (by simp [hu2]), if_pos hu3]
  · unfold rewriteImgSrc
    rw [if_pos (by simp [hu3])]
  · unfold rewriteImgSrc
    rw [if_pos (by simp [hv2])]
  · unfold rewriteImgSrc
    rw [if_neg (by simp [hw1, hw2])]
  · unfold rewriteScriptLinkUrl
    rw [if_neg (by simp [hx1]), if_neg (by simp [hx2]), if_neg (by simp [hx3])]
  · unfold proxyPageRewrite
    rw [List.map_map]
    exact List.map_congr_left fun e _ => hstyle e

/-- Witness for the amended C6 at concrete URLs of each kind. -/
theorem rewrite_pass_amended_witness :
    rewriteScriptLinkUrl (notionAssetsPre ++ "x.js") = "/_assets/" ++ "x.js" ∧
    rewriteScriptLinkUrl "https://acme.notion.site/assets/y.css" =
      "/assets/" ++ "y.css" ∧
    rewriteScriptLinkUrl "https://s3.amazonaws.com/f.png" =
      "/proxy/asset?url=" ++ encodeURIComponent "https://s3.amazonaws.com/f.png" ∧
    rewriteImgSrc "https://s3.amazonaws.com/f.png" =
      "/proxy/asset?url=" ++ encodeURIComponent "https://s3.amazonaws.com/f.png" ∧
    rewriteImgSrc "https://www.notion.so/image/a.png" =
      "/proxy/asset?url=" ++ encodeURIComponent "https://www.notion.so/image/a.png" ∧
    rewriteImgSrc "https://example.com/a.png" = "https://example.com/a.png" ∧
    rewriteScriptLinkUrl "https://fonts.googleapis.com/css" =
      "https://fonts.googleapis.com/css" ∧
    (proxyPageRewrite []).map Elem.style =
      (List.filter (fun e => !isAnalyticsScript e) []).map Elem.style :=
  rewrite_pass_amended "x.js" "https://s3.amazonaws.com/f.png"
    "https://www.notion.so/image/a.png" "https://example.com/a.png"
    "https://fonts.googleapis.com/css" "https://acme.notion.site/assets/y.css"
    "y.css" [] (by decide) (by decide) (by decide) (by decide) (by decide)
    (by decide) (by decide) (by decide) (by decide) (by decide) (by decide)
    (by decide) (by decide) (by decide)

/-! ## Claims about link auto-discovery -/

theorem mem_beforeChar (c : Char) :
    ∀ (l : List Char) (x : Char), x ∈ beforeChar c l → x ∈ l ∧ x ≠ c := by
  intro l
  induction l with
  | nil => intro x hx; cases hx
  | cons a t ih =>
      intro x hx
      unfold beforeChar at hx
      by_cases h : (a == c) = true
      · rw [if_pos h] at hx
        cases hx
      · rw [if_neg h] at hx
        rcases List.mem_cons.mp hx with rfl | hx'
        · exact ⟨List.mem_cons_self _ _, by simpa using h⟩
        · rcases ih x hx' with ⟨h1, h2⟩
          exact ⟨List.mem_cons_of_mem _ h1, h2⟩

theorem beforeChar_of_not_mem (c : Char) :
    ∀ l : List Char, c ∉ l → beforeChar c l = l := by
  intro l
  induction l with
  | nil => intro _; rfl
  | cons a t ih =>
      intro hl
      unfold beforeChar
      rw [if_neg (by simp; rintro rfl; exact hl (List.mem_cons_self _ _)),
        ih fun hc => hl (List.mem_cons_of_mem _ hc)]

theorem stripQueryFragment_idem (u : String) :
    stripQueryFragment (stripQueryFragment u) = stripQueryFragment u := by
  unfold stripQueryFragment
  have hq : Char.ofNat 63 ∉
      beforeChar (Char.ofNat 35) (beforeChar (Char.ofNat 63) u.data) := by
    intro hmem
    rcases mem_beforeChar _ _ _ hmem with ⟨h1, _⟩
    exact (mem_beforeChar _ _ _ h1).2 rfl
  have hh : Char.ofNat 35 ∉
      beforeChar (Char.ofNat 35) (beforeChar (Char.ofNat 63) u.data) := by
    intro hmem
    exact (mem_beforeChar _ _ _ hmem).2 rfl
  show (⟨beforeChar (Char.ofNat 35) (beforeChar (Char.ofNat 63)
      (beforeChar (Char.ofNat 35) (beforeChar (Char.ofNat 63) u.data)))⟩ : String) = _
  rw [beforeChar_of_not_mem _ _ hq, beforeChar_of_not_mem _ _ hh]

theorem collect_invariant (Q : String → Prop)
    (hstep : ∀ h : String, Q (stripQueryFragment h)) :
    ∀ (anchors acc : List String), (∀ l ∈ acc, Q l) →
      ∀ l ∈ anchors.foldl collectStep acc, Q l := by
  intro anchors
  induction anchors with
  | nil => intro acc hacc l hl; exact hacc l hl
  | cons a t ih =>
      intro acc hacc l hl
      refine ih (collectStep acc a) ?_ l hl
      intro x hx
      unfold collectStep at hx
      by_cases ha : isNotionHref a = true
      · rw [if_pos ha] at hx
        by_cases hc : acc.contains (stripQueryFragment a) = true
        · rw [if_pos hc] at hx
          exact hacc x hx
        · rw [if_neg hc] at hx
          rcases List.mem_append.mp hx with hx' | hx'
          · exact hacc x hx'
          · have : x = stripQueryFragment a := by simpa using hx'
            subst this
            exact hstep a
      · rw [if_neg ha] at hx
        exact hacc x hx

theorem collect_strip (anchors : List String) :
    ∀ l ∈ collectNotionLinks anchors, stripQueryFragment l = l := by
  exact collect_invariant (fun l => stripQueryFragment l = l)
    stripQueryFragment_idem anchors [] (by intro l hl; cases hl)

theorem collect_nodup_aux :
    ∀ (anchors acc : List String), acc.Nodup →
      (anchors.foldl collectStep acc).Nodup := by
  intro anchors
  induction anchors with
  | nil => intro acc h; exact h
  | cons a t ih =>
      intro acc hacc
      refine ih (collectStep acc a) ?_
      unfold collectStep
      by_cases ha : isNotionHref a = true
      · rw [if_pos ha]
        by_cases hc : acc.contains (stripQueryFragment a) = true
        · rw [if_pos hc]; exact hacc
        · rw [if_neg hc]
          have hnm : stripQueryFragment a ∉ acc := by
            intro hmem
            exact hc (List.elem_iff.mpr hmem)
          simp [List.nodup_append, hacc, hnm]
      · rw [if_neg ha]; exact hacc

theorem collect_nodup (anchors : List String) :
    (collectNotionLinks anchors).Nodup :=
  collect_nodup_aux anchors [] List.nodup_nil

theorem collect_grows :
    ∀ (anchors acc : List String) (x : String), x ∈ acc →
      x ∈ anchors.foldl collectStep acc := by
  intro anchors
  induction anchors with
  | nil => intro acc x hx; exact hx
  | cons a t ih =>
      intro acc x hx
      refine ih (collectStep acc a) x ?_
      unfold collectStep
      by_cases ha : isNotionHref a = true
      · rw [if_pos ha]
        by_cases hc : acc.contains (stripQueryFragment a) = true
        · rw [if_pos hc]; exact hx
        · rw [if_neg hc]; exact List.mem_append_left _ hx
      · rw [if_neg ha]; exact hx

theorem collect_mem :
    ∀ (anchors acc : List String) (h : String), h ∈ anchors →
      isNotionHref h = true →
      stripQueryFragment h ∈ anchors.foldl collectStep acc := by
  intro anchors
  induction anchors with
  | nil => intro acc h hmem; cases hmem
  | cons a t ih =>
      intro acc h hmem hn
      rcases List.mem_cons.mp hmem with rfl | hmem'
      · refine collect_grows t (collectStep acc h) _ ?_
        unfold collectStep
        rw [if_pos hn]
        by_cases hc : acc.contains (stripQueryFragment h) = true
        · rw [if_pos hc]
          exact List.elem_iff.mp hc
        · rw [if_neg hc]
          exact List.mem_append_right _ (List.mem_singleton.mpr rfl)
      · exact ih (collectStep acc a) h hmem' hn

theorem createMapping_append (newId url : String) (s : MappingStore)
    (h : ∀ m ∈ s, m.id ≠ newId) :
    (createMapping newId url s).2 =
      s ++ [⟨newId, url, none, false, 0, none⟩] := by
  unfold createMapping
  rw [if_neg]
  intro hany
  rcases List.any_eq_true.mp hany with ⟨m, hm, hmid⟩
  exact h m hm (by simpa using hmid)

theorem registerLinks_spec :
    ∀ (links : List String) (store : MappingStore) (fresh : List String),
      links.length ≤ fresh.length → fresh.Nodup →
      (∀ f ∈ fresh, ∀ m ∈ store, m.id ≠ f) →
      (∀ m ∈ store, m ∈ (registerLinks links store fresh).1) ∧
      ((registerLinks links store fresh).2.map Prod.fst = links) ∧
      (∀ pr ∈ (registerLinks links store fresh).2, ∃ mid : String,
        pr.2 = "/p/" ++ mid ∧
        ∃ m ∈ (registerLinks links store fresh).1,
          m.id = mid ∧ m.notion_url = pr.1) := by
  intro links
  induction links with
  | nil =>
      intro store fresh _ _ _
      refine ⟨fun m hm => hm, rfl, ?_⟩
      intro pr hpr
      cases hpr
  | cons l ls ih =>
      intro store fresh hlen hnd hdisj
      cases hfind : store.find? (fun m => m.notion_url == l) with
      | some m =>
          have hred : registerLinks (l :: ls) store fresh =
              ((registerLinks ls store fresh).1,
                (l, "/p/" ++ m.id) :: (registerLinks ls store fresh).2) := by
            clear * - hfind
            show (match store.find? (fun m => m.notion_url == l) with
              | some m =>
                  let r := registerLinks ls store fresh
                  (r.1, (l, "/p/" ++ m.id) :: r.2)
              | none =>
                  match fresh with
                  | [] => registerLinks ls store []
                  | fid :: rest =>
                      let r := registerLinks ls (createMapping fid l store).2 rest
                      (r.1, (l, "/p/" ++ fid) :: r.2)) = _
            rw [hfind]
          rcases ih store fresh (Nat.le_of_succ_le hlen) hnd hdisj with
            ⟨ih1, ih2, ih3⟩
          rw [hred]
          refine ⟨fun m' hm' => ih1 m' hm', by simpa using ih2, ?_⟩
          intro pr hpr
          rcases List.mem_cons.mp hpr with rfl | hpr'
          · refine ⟨m.id, rfl, m, ih1 m (List.mem_of_find?_eq_some hfind), rfl, ?_⟩
            have := List.find?_some hfind
            simpa using this
          · exact ih3 pr hpr'
      | none =>
          cases fresh with
          | nil =>
              exfalso
              have : ls.length + 1 ≤ 0 := by simpa using hlen
              exact Nat.not_succ_le_zero _ this
          | cons fid rest =>
              have hnotin : ∀ m ∈ store, m.id ≠ fid :=
                fun m hm => hdisj fid (List.mem_cons_self _ _) m hm
              have happ := createMapping_append fid l store hnotin
              have hred : registerLinks (l :: ls) store (fid :: rest) =
                  ((registerLinks ls (createMapping fid l store).2 rest).1,
                    (l, "/p/" ++ fid) ::
                      (registerLinks ls (createMapping fid l store).2 rest).2) := by
                clear * - hfind
                show (match store.find? (fun m => m.notion_url == l) with
                  | some m =>
                      let r := registerLinks ls store (fid :: rest)
                      (r.1, (l, "/p/" ++ m.id) :: r.2)
                  | none =>
                      match fid :: rest with
                      | [] => registerLinks ls store []
                      | fid2 :: rest2 =>
                          let r := registerLinks ls
                            (createMapping fid2 l store).2 rest2
                          (r.1, (l, "/p/" ++ fid2) :: r.2)) = _
                rw [hfind]
              have hfidrest : fid ∉ rest := by
                have := hnd
                rw [List.nodup_cons] at this
                exact this.1
              have hndrest : rest.Nodup := by
                have := hnd
                rw [List.nodup_cons] at this
                exact this.2
              have hdisj' : ∀ f ∈ rest, ∀ m2 ∈ (createMapping fid l store).2,
                  m2.id ≠ f := by
                intro f hf m2 hm2
                rw [happ] at hm2
                rcases List.mem_append.mp hm2 with hm2' | hm2'
                · exact hdisj f (List.mem_cons_of_mem _ hf) m2 hm2'
                · have : m2 = (⟨fid, l, none, false, 0, none⟩ : Mapping) := by
                    simpa using hm2'
                  subst this
                  intro heq
                  have hfe : fid = f := heq
                  subst hfe
                  exact hfidrest hf
              have hlen' : ls.length ≤ rest.length := by
                simpa using hlen
              rcases ih (createMapping fid l store).2 rest hlen' hndrest hdisj'
                with ⟨ih1, ih2, ih3⟩
              rw [hred]
              refine ⟨?_, by simpa using ih2, ?_⟩
              · intro m' hm'
                refine ih1 m' ?_
                rw [happ]
                exact List.mem_append_left _ hm'
              · intro pr hpr
                rcases List.mem_cons.mp hpr with rfl | hpr'
                · refine ⟨fid, rfl, ⟨fid, l, none, false, 0, none⟩, ?_, rfl, rfl⟩
                  refine ih1 _ ?_
                  rw [happ]
                  exact List.mem_append_right _ (List.mem_singleton.mpr rfl)
                · exact ih3 pr hpr'

theorem applyRewrites_eq_map :
    ∀ (rws : List (String × String)) (anchors : List String),
      applyRewrites rws anchors = anchors.map (applyRewriteStr rws) := by
  intro rws
  induction rws with
  | nil =>
      intro anchors
      show anchors = anchors.map fun h => h
      rw [List.map_id']
  | cons pr prs ih =>
      intro anchors
      show applyRewrites prs (anchors.map fun h => if h == pr.1 then pr.2 else h) =
        anchors.map (applyRewriteStr (pr :: prs))
      rw [ih, List.map_map]
      rfl

theorem applyRewriteStr_of_not_mem :
    ∀ (rws : List (String × String)) (h : String),
      (∀ pr ∈ rws, pr.1 ≠ h) → applyRewriteStr rws h = h := by
  intro rws
  induction rws with
  | nil => intro h _; rfl
  | cons q qs ih =>
      intro h hne
      show applyRewriteStr qs (if h == q.1 then q.2 else h) = h
      rw [if_neg (by
        simp only [beq_iff_eq]
        intro heq
        exact hne q (List.mem_cons_self _ _) heq.symm)]
      exact ih h fun pr hpr => hne pr (List.mem_cons_of_mem _ hpr)

theorem applyRewriteStr_hit :
    ∀ (rws : List (String × String)) (pr : String × String), pr ∈ rws →
      (rws.map Prod.fst).Nodup →
      (∀ q ∈ rws, jsStartsWith q.2 "/p/" = true) →
      (∀ q ∈ rws, jsStartsWith q.1 "/p/" = false) →
      applyRewriteStr rws pr.1 = pr.2 := by
  intro rws
  induction rws with
  | nil => intro pr hpr; cases hpr
  | cons q qs ih =>
      intro pr hpr hnd hvals hfsts
      rcases List.mem_cons.mp hpr with rfl | hpr'
      · show applyRewriteStr qs (if pr.1 == pr.1 then pr.2 else pr.1) = pr.2
        rw [if_pos (by simp)]
        refine applyRewriteStr_of_not_mem qs pr.2 ?_
        intro r hr heq
        have h1 : jsStartsWith r.1 "/p/" = false :=
          hfsts r (List.mem_cons_of_mem _ hr)
        have h2 : jsStartsWith pr.2 "/p/" = true :=
          hvals pr (List.mem_cons_self _ _)
        rw [heq, h2] at h1
        cases h1
      · show applyRewriteStr qs (if pr.1 == q.1 then q.2 else pr.1) = pr.2
        have hne : (pr.1 == q.1) = false := by
          simp only [beq_eq_false_iff_ne, ne_eq]
          intro heq
          have hq1 : q.1 ∉ qs.map Prod.fst := by
            have := hnd
            rw [List.map_cons, List.nodup_cons] at this
            exact this.1
          exact hq1 (heq ▸ List.mem_map_of_mem Prod.fst hpr')
        rw [if_neg (by simp [hne])]
        refine ih pr hpr' ?_ ?_ ?_
        · have := hnd
          rw [List.map_cons, List.nodup_cons] at this
          exact this.2
        · exact fun r hr => hvals r (List.mem_cons_of_mem _ hr)
        · exact fun r hr => hfsts r (List.mem_cons_of_mem _ hr)

/-- Claim C7 counterexample: with auto-discovery on, a page whose only
anchor is `https://acme.notion.site/Some-Page-abc123?pvs=4` produces a new
Mapping for the stripped link, but the anchor href is NOT rewritten to
`/p/<newId>`: the replacement selector matches by the stripped URL, which
differs from the anchor's actual href, so the href survives unchanged. -/
theorem autodiscover_counterexample :
    (∃ m ∈ (autoDiscoverPass ["https://acme.notion.site/Some-Page-abc123?pvs=4"]
        [] ["newid12345"]).2,
      m.notion_url = "https://acme.notion.site/Some-Page-abc123" ∧
      m.id = "newid12345") ∧
    (autoDiscoverPass ["https://acme.notion.site/Some-Page-abc123?pvs=4"]
        [] ["newid12345"]).1 =
      ["https://acme.notion.site/Some-Page-abc123?pvs=4"] ∧
    (autoDiscoverPass ["https://acme.notion.site/Some-Page-abc123?pvs=4"]
        [] ["newid12345"]).1 ≠ ["/p/newid12345"] := by
  refine ⟨⟨⟨"newid12345", "https://acme.notion.site/Some-Page-abc123",
    none, false, 0, none⟩, by decide, rfl, rfl⟩, rfl, by decide⟩

/-- Claim C7 as amended: one auto-discovery pass collects the anchor hrefs
that target upstream page domains, strips query and fragment, deduplicates,
and looks up or creates a Mapping whose sourceUrl equals each collected
link; but only an anchor whose href already equals its stripped form is
rewritten to `/p/<id>` — an anchor whose href carries a query or fragment
(so the href is not itself a collected link) keeps its original href even
though its stripped link got a Mapping.  Hypotheses: a sufficient supply of
distinct fresh ids that do not collide with the store, and no collected
link starts with `/p/`. -/
theorem autodiscover_pass_amended (anchors : List String)
    (store : MappingStore) (fresh : List String)
    (hsupply : (collectNotionLinks anchors).length ≤ fresh.length)
    (hfresh : fresh.Nodup)
    (hdisj : ∀ f ∈ fresh, ∀ m ∈ store, m.id ≠ f)
    (hnoproxy : ∀ l ∈ collectNotionLinks anchors,
      jsStartsWith l "/p/" = false) :
    (∀ h ∈ anchors, isNotionHref h = true →
      stripQueryFragment h ∈ collectNotionLinks anchors) ∧
    (∀ l ∈ collectNotionLinks anchors, stripQueryFragment l = l) ∧
    (collectNotionLinks anchors).Nodup ∧
    (∀ l ∈ collectNotionLinks anchors,
      ∃ m ∈ (autoDiscoverPass anchors store fresh).2, m.notion_url = l) ∧
    (∀ m ∈ store, m ∈ (autoDiscoverPass anchors store fresh).2) ∧
    ((autoDiscoverPass anchors store fresh).1 = anchors.map
      (applyRewriteStr (registerLinks (collectNotionLinks anchors) store fresh).2)) ∧
    (∀ h ∈ anchors, h ∉ collectNotionLinks anchors →
      applyRewriteStr (registerLinks (collectNotionLinks anchors) store fresh).2 h
        = h) ∧
    (∀ h ∈ anchors, h ∈ collectNotionLinks anchors → ∃ mid : String,
      applyRewriteStr (registerLinks (collectNotionLinks anchors) store fresh).2 h
        = "/p/" ++ mid ∧
      ∃ m ∈ (autoDiscoverPass anchors store fresh).2,
        m.id = mid ∧ m.notion_url = h) := by
  obtain ⟨S1, S2, S3⟩ := registerLinks_spec (collectNotionLinks anchors)
    store fresh hsupply hfresh hdisj
  refine ⟨?_, collect_strip anchors, collect_nodup anchors, ?_, ?_, ?_, ?_, ?_⟩
  · exact fun h hm hn => collect_mem anchors [] h hm hn
  · intro l hl
    have hmm : l ∈ (registerLinks (collectNotionLinks anchors) store fresh).2.map
        Prod.fst := by
      rw [S2]; exact hl
    rcases List.mem_map.mp hmm with ⟨pr, hpr, hfst⟩
    rcases S3 pr hpr with ⟨mid, _, m, hmR, _, hmurl⟩
    exact ⟨m, hmR, by rw [hmurl, hfst]⟩
  · exact S1
  · exact applyRewrites_eq_map _ anchors
  · intro h _ hnot
    refine applyRewriteStr_of_not_mem _ h ?_
    intro pr hpr heq
    have hin : pr.1 ∈ collectNotionLinks anchors := by
      rw [← S2]
      exact List.mem_map_of_mem Prod.fst hpr
    exact hnot (heq ▸ hin)
  · intro h _ hl
    have hmm : h ∈ (registerLinks (collectNotionLinks anchors) store fresh).2.map
        Prod.fst := by
      rw [S2]; exact hl
    rcases List.mem_map.mp hmm with ⟨pr, hpr, hfst⟩
    rcases S3 pr hpr with ⟨mid, hval, m, hmR, hmid, hmurl⟩
    have hvals : ∀ q ∈ (registerLinks (collectNotionLinks anchors) store fresh).2,
        jsStartsWith q.2 "/p/" = true := by
      intro q hq
      rcases S3 q hq with ⟨mid2, hval2, _⟩
      rw [hval2]
      unfold jsStartsWith
      rw [String.data_append]
      exact startsWithL_same _ _
    have hfsts : ∀ q ∈ (registerLinks (collectNotionLinks anchors) store fresh).2,
        jsStartsWith q.1 "/p/" = false := by
      intro q hq
      apply hnoproxy
      rw [← S2]
      exact List.mem_map_of_mem Prod.fst hq
    have hnd2 : ((registerLinks (collectNotionLinks anchors) store fresh).2.map
        Prod.fst).Nodup := by
      rw [S2]; exact collect_nodup anchors
    have hhit := applyRewriteStr_hit _ pr hpr hnd2 hvals hfsts
    refine ⟨mid, ?_, m, hmR, hmid, by rw [hmurl, hfst]⟩
    calc applyRewriteStr (registerLinks (collectNotionLinks anchors) store fresh).2 h
        = applyRewriteStr
            (registerLinks (collectNotionLinks anchors) store fresh).2 pr.1 := by
          rw [hfst]
      _ = pr.2 := hhit
      _ = "/p/" ++ mid := hval

/-- Witness for the amended C7: one upstream anchor (clean, no query) and
one non-upstream anchor, an empty store and one fresh id. -/
theorem autodiscover_pass_amended_witness :
    (∀ h ∈ ["https://acme.notion.site/A", "https://example.com/x"],
      isNotionHref h = true →
      stripQueryFragment h ∈
        collectNotionLinks ["https://acme.notion.site/A", "https://example.com/x"]) ∧
    (∀ l ∈ collectNotionLinks ["https://acme.notion.site/A", "https://example.com/x"],
      stripQueryFragment l = l) ∧
    (collectNotionLinks ["https://acme.notion.site/A", "https://example.com/x"]).Nodup ∧
    (∀ l ∈ collectNotionLinks ["https://acme.notion.site/A", "https://example.com/x"],
      ∃ m ∈ (autoDiscoverPass ["https://acme.notion.site/A", "https://example.com/x"]
        [] ["n1"]).2, m.notion_url = l) ∧
    (∀ m ∈ ([] : MappingStore),
      m ∈ (autoDiscoverPass ["https://acme.notion.site/A", "https://example.com/x"]
        [] ["n1"]).2) ∧
    ((autoDiscoverPass ["https://acme.notion.site/A", "https://example.com/x"]
        [] ["n1"]).1 =
      ["https://acme.notion.site/A", "https://example.com/x"].map
        (applyRewriteStr (registerLinks
          (collectNotionLinks ["https://acme.notion.site/A", "https://example.com/x"])
          [] ["n1"]).2)) ∧
    (∀ h ∈ ["https://acme.notion.site/A", "https://example.com/x"],
      h ∉ collectNotionLinks ["https://acme.notion.site/A", "https://example.com/x"] →
      applyRewriteStr (registerLinks
        (collectNotionLinks ["https://acme.notion.site/A", "https://example.com/x"])
        [] ["n1"]).2 h = h) ∧
    (∀ h ∈ ["https://acme.notion.site/A", "https://example.com/x"],
      h ∈ collectNotionLinks ["https://acme.notion.site/A", "https://example.com/x"] →
      ∃ mid : String,
        applyRewriteStr (registerLinks
          (collectNotionLinks ["https://acme.notion.site/A", "https://example.com/x"])
          [] ["n1"]).2 h = "/p/" ++ mid ∧
        ∃ m ∈ (autoDiscoverPass ["https://acme.notion.site/A", "https://example.com/x"]
          [] ["n1"]).2, m.id = mid ∧ m.notion_url = h) :=
  autodiscover_pass_amended ["https://acme.notion.site/A", "https://example.com/x"]
    [] ["n1"] (by decide) (by decide) (by decide) (by decide)

/-! ## Claims about the Resolver -/

theorem startsWithL_exists :
    ∀ (pat s : List Char), startsWithL s pat = true → ∃ r, s = pat ++ r := by
  intro pat
  induction pat with
  | nil => intro s _; exact ⟨s, rfl⟩
  | cons c cs ih =>
      intro s h
      cases s with
      | nil => cases h
      | cons a as =>
          have h' : (a == c) = true ∧ startsWithL as cs = true := by
            simpa [startsWithL] using h
          have ha : a = c := by simpa using h'.1
          obtain ⟨r, hr⟩ := ih as h'.2
          exact ⟨r, by rw [ha, hr]; rfl⟩

/-- Claim C8 counterexample: the path `/custom.js` has a registered exact
path mapping AND a known static-asset extension; the catch-all resolves it
as a direct upstream asset request against `https://www.notion.so`, not to
the mapping's sourceUrl as the claim requires. -/
theorem resolver_order_counterexample :
    routeResolve 0 ""
        [⟨"m1", "https://acme.notion.site/Custom", some "/custom.js",
          false, 0, none⟩] "/custom.js" =
      Resolution.directAsset "https://www.notion.so/custom.js" ∧
    routeResolve 0 ""
        [⟨"m1", "https://acme.notion.site/Custom", some "/custom.js",
          false, 0, none⟩] "/custom.js" ≠
      Resolution.page "https://acme.notion.site/Custom" ∧
    getMappingByPath "/custom.js"
        [⟨"m1", "https://acme.notion.site/Custom", some "/custom.js",
          false, 0, none⟩] =
      some ⟨"m1", "https://acme.notion.site/Custom", some "/custom.js",
        false, 0, none⟩ ∧
    getMimeType "/custom.js" = some "application/javascript" := by
  exact ⟨rfl, by decide, rfl, rfl⟩

/-- Claim C8 as amended: the resolver order is root path, then legacy id,
then static-asset extension sniffing, then exact path match, else NotFound —
extension sniffing precedes the exact path match, so a path that both has a
registered path mapping and ends in a known static-asset extension is
treated as a direct upstream asset request, bypassing the Mapping Store. -/
theorem resolver_order_amended (now : Nat) (rootEnv u mt : String)
    (s : MappingStore) (p q : String) (m m2 : Mapping) :
    (getRootMapping s = some m →
      routeResolve now rootEnv s "/" = .page m.notion_url) ∧
    (getRootMapping s = none → rootEnv ≠ "" →
      routeResolve now rootEnv s "/" = .page rootEnv) ∧
    (isLegacyPath q = true → (getMapping now (legacyIdOf q) s).1 = some u →
      routeResolve now rootEnv s q = .page u) ∧
    (reservedCatchAll p = false → p ≠ "/" → p ≠ "/cache/stats" →
      routeResolve now rootEnv s p = catchAllResolve s p) ∧
    (reservedCatchAll p = false → getMappingByPath p s = some m2 →
      getMimeType p = some mt →
      catchAllResolve s p = .directAsset ("https://www.notion.so" ++ p)) ∧
    (reservedCatchAll p = false → getMimeType p = none →
      getMappingByPath p s = some m2 →
      catchAllResolve s p = .page m2.notion_url) ∧
    (reservedCatchAll p = false → getMimeType p = none →
      getMappingByPath p s = none →
      catchAllResolve s p = .notFound) := by
  refine ⟨?_, ?_, ?_, ?_, ?_, ?_, ?_⟩
  · intro h
    unfold routeResolve
    rw [if_neg (by decide), if_neg (by decide), if_neg (by decide),
      if_neg (by decide), if_neg (by decide), if_pos (by decide), h]
  · intro h hne
    unfold routeResolve
    rw [if_neg (by decide), if_neg (by decide), if_neg (by decide),
      if_neg (by decide), if_neg (by decide), if_pos (by decide), h,
      if_neg (by simp [hne])]
  · intro hq hget
    have hq' := hq
    unfold isLegacyPath at hq'
    simp only [Bool.and_eq_true] at hq'
    obtain ⟨⟨hq1, _⟩, _⟩ := hq'
    have hqT : startsWithL q.data ['/', 'p', '/'] = true := by
      unfold jsStartsWith at hq1
      exact hq1
    obtain ⟨r, hr⟩ := startsWithL_exists _ _ hqT
    have hne : ∀ t : String, startsWithL t.data ['/', 'p', '/'] = false →
        ¬ (q = t) := by
      intro t ht heq
      rw [heq] at hqT
      rw [hqT] at ht
      cases ht
    have g1 : jsStartsWith q "/_assets/" = false := by
      unfold jsStartsWith
      rw [hr, show "/_assets/".data = ['/', '_', 'a', 's', 's', 'e', 't', 's', '/']
        from rfl]
      simp [startsWithL]
    have g2 : jsStartsWith q "/assets/" = false := by
      unfold jsStartsWith
      rw [hr, show "/assets/".data = ['/', 'a', 's', 's', 'e', 't', 's', '/']
        from rfl]
      simp [startsWithL]
    have g3 : (q == "/proxy/asset") = false :=
      beq_eq_false_iff_ne.mpr (hne "/proxy/asset" (by decide))
    unfold routeResolve
    rw [if_neg (by simp [g1]), if_neg (by simp [g2]), if_neg (by simp [g3]),
      if_pos hq, hget]
  · intro h hne1 hne2
    have gfalse : ∀ b : Bool,
        (b = true → reservedCatchAll p = true) → b = false := by
      intro b himp
      cases hb : b with
      | false => rfl
      | true =>
          rw [himp hb] at h
          cases h
    have g1 : jsStartsWith p "/_assets/" = false := by
      refine gfalse _ fun hb => ?_
      unfold reservedCatchAll
      simp [hb]
    have g2 : jsStartsWith p "/assets/" = false := by
      refine gfalse _ fun hb => ?_
      unfold reservedCatchAll
      simp [hb]
    have g7 : jsStartsWith p "/pixel/" = false := by
      refine gfalse _ fun hb => ?_
      unfold reservedCatchAll
      simp [hb]
    have gp : jsStartsWith p "/p/" = false := by
      refine gfalse _ fun hb => ?_
      unfold reservedCatchAll
      simp [hb]
    have gproxy : jsStartsWith p "/proxy/" = false := by
      refine gfalse _ fun hb => ?_
      unfold reservedCatchAll
      simp [hb]
    have g3 : ¬ (p = "/proxy/asset") := by
      rintro rfl
      exact absurd h (by decide)
    have g4 : isLegacyPath p = false := by
      unfold isLegacyPath
      rw [gp]
      rfl
    have e1 : ¬ (p = "/list") := by
      rintro rfl
      exact absurd h (by decide)
    have e2 : ¬ (p = "/health") := by
      rintro rfl
      exact absurd h (by decide)
    unfold routeResolve
    rw [if_neg (by simp [g1]), if_neg (by simp [g2]), if_neg (by simp [g3]),
      if_neg (by simp [g4]), if_neg (by simp [e1, e2, hne2]),
      if_neg (by simp [hne1]), if_neg (by simp [g7])]
  · intro h _ hmt
    unfold catchAllResolve
    rw [if_neg (by simp [h]), hmt]
  · intro h hmt hpath
    unfold catchAllResolve
    rw [if_neg (by simp [h]), hmt, hpath]
  · intro h hmt hpath
    unfold catchAllResolve
    rw [if_neg (by simp [h]), hmt, hpath]

/-- Witness for the amended C8 at a concrete store whose only mapping sits
on the path `/custom.js`. -/
theorem resolver_order_amended_witness :
    (getRootMapping [⟨"m1", "https://acme.notion.site/Custom",
        some "/custom.js", false, 0, none⟩] =
        some ⟨"m1", "https://acme.notion.site/Custom", some "/custom.js",
          false, 0, none⟩ →
      routeResolve 5 "https://acme.notion.site/Root"
          [⟨"m1", "https://acme.notion.site/Custom", some "/custom.js",
            false, 0, none⟩] "/" =
        .page (⟨"m1", "https://acme.notion.site/Custom", some "/custom.js",
          false, 0, none⟩ : Mapping).notion_url) ∧
    (getRootMapping [⟨"m1", "https://acme.notion.site/Custom",
        some "/custom.js", false, 0, none⟩] = none →
      "https://acme.notion.site/Root" ≠ "" →
      routeResolve 5 "https://acme.notion.site/Root"
          [⟨"m1", "https://acme.notion.site/Custom", some "/custom.js",
            false, 0, none⟩] "/" =
        .page "https://acme.notion.site/Root") ∧
    (isLegacyPath "/p/m1" = true →
      (getMapping 5 (legacyIdOf "/p/m1")
          [⟨"m1", "https://acme.notion.site/Custom", some "/custom.js",
            false, 0, none⟩]).1 = some "https://acme.notion.site/Custom" →
      routeResolve 5 "https://acme.notion.site/Root"
          [⟨"m1", "https://acme.notion.site/Custom", some "/custom.js",
            false, 0, none⟩] "/p/m1" =
        .page "https://acme.notion.site/Custom") ∧
    (reservedCatchAll "/custom.js" = false → "/custom.js" ≠ "/" →
      "/custom.js" ≠ "/cache/stats" →
      routeResolve 5 "https://acme.notion.site/Root"
          [⟨"m1", "https://acme.notion.site/Custom", some "/custom.js",
            false, 0, none⟩] "/custom.js" =
        catchAllResolve
          [⟨"m1", "https://acme.notion.site/Custom", some "/custom.js",
            false, 0, none⟩] "/custom.js") ∧
    (reservedCatchAll "/custom.js" = false →
      getMappingByPath "/custom.js"
          [⟨"m1", "https://acme.notion.site/Custom", some "/custom.js",
            false, 0, none⟩] =
        some ⟨"m1", "https://acme.notion.site/Custom", some "/custom.js",
          false, 0, none⟩ →
      getMimeType "/custom.js" = some "application/javascript" →
      catchAllResolve
          [⟨"m1", "https://acme.notion.site/Custom", some "/custom.js",
            false, 0, none⟩] "/custom.js" =
        .directAsset ("https://www.notion.so" ++ "/custom.js")) ∧
    (reservedCatchAll "/custom.js" = false →
      getMimeType "/custom.js" = none →
      getMappingByPath "/custom.js"
          [⟨"m1", "https://acme.notion.site/Custom", some "/custom.js",
            false, 0, none⟩] =
        some ⟨"m1", "https://acme.notion.site/Custom", some "/custom.js",
          false, 0, none⟩ →
      catchAllResolve
          [⟨"m1", "https://acme.notion.site/Custom", some "/custom.js",
            false, 0, none⟩] "/custom.js" =
        .page (⟨"m1", "https://acme.notion.site/Custom", some "/custom.js",
          false, 0, none⟩ : Mapping).notion_url) ∧
    (reservedCatchAll "/custom.js" = false →
      getMimeType "/custom.js" = none →
      getMappingByPath "/custom.js"
          [⟨"m1", "https://acme.notion.site/Custom", some "/custom.js",
            false, 0, none⟩] = none →
      catchAllResolve
          [⟨"m1", "https://acme.notion.site/Custom", some "/custom.js",
            false, 0, none⟩] "/custom.js" = .notFound) :=
  resolver_order_amended 5 "https://acme.notion.site/Root"
    "https://acme.notion.site/Custom" "application/javascript"
    [⟨"m1", "https://acme.notion.site/Custom", some "/custom.js",
      false, 0, none⟩] "/custom.js" "/p/m1"
    ⟨"m1", "https://acme.notion.site/Custom", some "/custom.js", false, 0, none⟩
    ⟨"m1", "https://acme.notion.site/Custom", some "/custom.js", false, 0, none⟩
